import Mathlib

/-!
Shallow embedding of `piku.py` (single-host PaaS deployment / worker-lifecycle
controller) and proofs about its claims.

Modelling conventions:
* File contents are modelled as lists of lines (`List String`); a missing file
  is `none`.
* Python dictionaries are association lists (`List (String × α)`) with
  `setKey` implementing `d[k] = v` (overwrite-or-append) and `getVal`
  implementing lookup.
* The two uwsgi configuration directories are association lists from file
  name to file content; a generated ini file's content is its list of
  `key = value` settings lines (`Content`).
* `echo` output is reduced to the decisive message of each command, tagged by
  the colour the source uses (green = ok, yellow = warn, red = err).
* External subprocesses (git, virtualenv, pip), `sleep(5)` and the socket in
  `get_free_port` are outside the state: the freshly allocated port is a
  parameter, source-control calls do not change the modelled state.
* The source is Python 2 with several slips that make it unrunnable as-is
  (a stray indent before `create_workers`, a missing comma and bracket in the
  `single_worker` settings list, the `'%v'` format directive, and the call to
  the undefined name `create_worker` where `single_worker` is defined).
  Those slips are read as evidently intended; state-dependent behaviour
  (the unconditional `os.unlink`, dict lookups that can raise `KeyError`)
  is modelled faithfully via error outcomes.
-/

namespace Piku

/-- Python `str.strip()`: remove leading and trailing whitespace. -/
def pyStrip (s : String) : String :=
  ⟨(((s.data.dropWhile Char.isWhitespace).reverse).dropWhile Char.isWhitespace).reverse⟩

/-- Python `str.rstrip()`: remove trailing whitespace. -/
def pyRstrip (s : String) : String :=
  ⟨((s.data.reverse).dropWhile Char.isWhitespace).reverse⟩

/-- Python `s.split(sep, 1)` on a character list: split at the first
occurrence of `c`; `none` when `c` is absent (the 1-element result that makes
the source's tuple unpacking raise). -/
def splitFirst (c : Char) : List Char → Option (List Char × List Char)
  | [] => none
  | x :: xs =>
    if x = c then some ([], xs)
    else (splitFirst c xs).map (fun p => (x :: p.1, p.2))

/-- `s.split(c, 1)` on strings. -/
def splitOnce (c : Char) (s : String) : Option (String × String) :=
  (splitFirst c s.data).map (fun p => (⟨p.1⟩, ⟨p.2⟩))

/-- Association-list lookup (`k in d` / `d[k]`). -/
def getVal {α : Type} : List (String × α) → String → Option α
  | [], _ => none
  | p :: m, k' => if p.1 = k' then some p.2 else getVal m k'

/-- Python dict assignment `d[k] = v` on an association list: overwrite the
existing binding, else append. -/
def setKey {α : Type} (m : List (String × α)) (k : String) (v : α) :
    List (String × α) :=
  if m.any (fun p => p.1 = k) then
    m.map (fun p => if p.1 = k then (k, v) else p)
  else m ++ [(k, v)]

/-- Python `del d[k]`. -/
def delKey {α : Type} (m : List (String × α)) (k : String) : List (String × α) :=
  m.filter (fun p => p.1 ≠ k)

/-- Python `d.update(d2)`. -/
def updateKV {α : Type} (m m' : List (String × α)) : List (String × α) :=
  m'.foldl (fun acc p => setKey acc p.1 p.2) m

/-- `sanitize_app_name`: keep alphanumeric characters plus `.` and `_`, then
strip trailing whitespace. -/
def sanitize_app_name (app : String) : String :=
  pyRstrip ⟨app.data.filter (fun c => c.isAlphanum || c == '.' || c == '_')⟩

/-- The closed set of worker kinds recognised by `parse_procfile`. -/
def procKinds : List String := ["web", "worker", "wsgi"]

/-- One iteration of `parse_procfile`'s loop, acting on the `workers` dict.
A line without `:` raises in the source (tuple unpacking) and leaves the dict
unchanged; a line whose stripped kind is not recognised is skipped. -/
def procLine (m : List (String × String)) (line : String) : List (String × String) :=
  match splitOnce ':' line with
  | some (l, r) =>
    let kind := pyStrip l
    if kind ∈ procKinds then setKey m kind (pyStrip r) else m
  | none => m

/-- The warning emitted by one iteration of `parse_procfile`'s loop: the
source only reaches its `except` handler (and hence `echo`) when the line has
no `:` separator. -/
def procWarn (line : String) : List String :=
  match splitOnce ':' line with
  | some _ => []
  | none => ["Warning: unrecognized Procfile declaration '" ++ line ++ "'"]

/-- The value `parse_procfile` returns, as a function of the scanned worker
map: `None` when the map is empty, else the map after the wsgi-over-web rule
(`if 'wsgi' in workers: if 'web' in workers: del workers['web']`). -/
def procResult (workers : List (String × String)) : Option (List (String × String)) :=
  if workers.length = 0 then none
  else if (getVal workers "wsgi").isSome then
    if (getVal workers "web").isSome then some (delKey workers "web") else some workers
  else some workers

/-- `parse_procfile`: `none` when the file is missing or the scanned worker
map is empty; otherwise the worker map after the wsgi-over-web rule, paired
with the warnings the loop emitted. -/
def parse_procfile (file : Option (List String)) :
    Option (List (String × String)) × List String :=
  match file with
  | none => (none, [])
  | some lines =>
    (procResult (lines.foldl procLine []),
     lines.foldl (fun acc l => acc ++ procWarn l) [])

/-- One iteration of `parse_settings`' loop: split on the first `=`, strip
both sides; a line without `=` raises, is warned about and skipped. -/
def settingsLine (m : List (String × String)) (line : String) :
    List (String × String) :=
  match splitOnce '=' line with
  | some (l, r) => setKey m (pyStrip l) (pyStrip r)
  | none => m

/-- `parse_settings` on the contents of an existing file. -/
def parse_settings (lines : List String) : List (String × String) :=
  lines.foldl settingsLine []

/-- `os.path.join` for the relative second components the source uses
(Python: `join("a", "b") = "a/b"`, `join("a", "") = "a/"`). -/
def pathJoin (a b : String) : String := a ++ "/" ++ b

def APP_ROOT (root : String) : String := pathJoin root "apps"
def ENV_ROOT (root : String) : String := pathJoin root "envs"
def GIT_ROOT (root : String) : String := pathJoin root "repos"
def LOG_ROOT (root : String) : String := pathJoin root "logs"
def UWSGI_AVAILABLE (root : String) : String := pathJoin root "uwsgi-available"
def UWSGI_ENABLED (root : String) : String := pathJoin root "uwsgi-enabled"

/-- The environment dict built at the top of `create_workers`: process-level
defaults, updated with the repo-shipped `ENV` file when present, updated with
the operator settings file when present.  (The source's `VIRTUAL_ENV` value
reads the name `env_path`, undefined in that scope; it is read as the
virtualenv path `join(ENV_ROOT, app)` set elsewhere.)  The freshly allocated
port of `get_free_port` is the `port` parameter. -/
def create_workers_env (path vpath : String) (port : Nat)
    (envFile customSettings : Option (List String)) : List (String × String) :=
  let env := [("PATH", path), ("VIRTUAL_ENV", vpath), ("PORT", toString port)]
  let env := match envFile with
    | some ls => updateKV env (parse_settings ls)
    | none => env
  match customSettings with
  | some ls => updateKV env (parse_settings ls)
  | none => env

/-- Content of a generated uwsgi ini file: its `key = value` lines. -/
abbrev Content := List (String × String)

/-- The settings list built by `single_worker` (the `[uwsgi]` section of the
generated unit).  `none` models the `KeyError` raised by `env['PORT']` for a
wsgi worker when `PORT` is absent. -/
def worker_settings (root app kind command : String) (env : List (String × String))
    (ordinal : Nat) : Option Content :=
  let base : Content := [
    ("virtualenv", pathJoin (ENV_ROOT root) app),
    ("chdir", pathJoin (APP_ROOT root) app),
    ("master", "true"),
    ("project", app),
    ("max-requests", "1000"),
    ("processes", "1"),
    ("procname-prefix", app ++ "_" ++ kind ++ "_" ++ toString ordinal),
    ("enable-threads", "true"),
    ("threads", "4"),
    ("log-maxsize", "1048576"),
    ("logto", pathJoin (pathJoin (LOG_ROOT root) app) kind ++ "_" ++ toString ordinal ++ ".log"),
    ("log-backupname", pathJoin (pathJoin (LOG_ROOT root) app) kind ++ "_" ++ toString ordinal ++ ".log.old")]
  let withEnv := base ++ env.map (fun p => ("env", p.1 ++ "=" ++ p.2))
  if kind = "wsgi" then
    match getVal env "PORT" with
    | some port => some (withEnv ++ [("module", command), ("http", ":" ++ port)])
    | none => none
  else some (withEnv ++ [("attach-daemon", command)])

/-- Files of an application checkout that the deploy pipeline reads. -/
structure AppFiles where
  procfile : Option (List String)
  requirements : Bool
deriving DecidableEq, Repr

/-- The filesystem state the lifecycle controller manipulates: the per-app
subdirectories of the four roots, and the two uwsgi configuration
directories as (file name, content) association lists. -/
structure FS where
  apps : List (String × AppFiles)
  repos : List String
  envs : List String
  logs : List String
  avail : List (String × Content)
  enabled : List (String × Content)
deriving DecidableEq, Repr

/-- The glob pattern `app*.ini` on a file name within one of the uwsgi
directories: `app` is a literal prefix (sanitized names contain no glob
metacharacters) and the remainder ends in `.ini`.  This is exact for every
non-empty `app`: glob's hidden-file rule (a `*`-led pattern never matches a
dot-led name) can only diverge from it when the pattern's literal prefix is
empty, and that rule is modelled where it matters, in the path-level
`pathGlobIni` used by `destroy_app_disk`. -/
def iniGlobMatch (app fname : String) : Bool :=
  app.data.isPrefixOf fname.data &&
    ".ini".data.isSuffixOf (fname.data.drop app.data.length)

/-- Outcome of a command, tagged by the colour of the decisive `echo`
(green = ok, yellow = warn, red = err). -/
inductive Outcome where
  | ok (msg : String)
  | warn (msg : String)
  | err (msg : String)
deriving DecidableEq, Repr

def Outcome.isErr : Outcome → Bool
  | .err _ => true
  | _ => false

/-- `single_worker`: write the generated unit to the available directory,
then `os.unlink` the enabled copy — which raises when no enabled copy exists,
aborting before `shutil.copyfile` re-creates it. -/
def single_worker (root app kind command : String) (env : List (String × String))
    (ordinal : Nat) (fs : FS) : FS × Outcome :=
  let name := app ++ "_" ++ kind ++ "_" ++ toString ordinal ++ ".ini"
  match worker_settings root app kind command env ordinal with
  | none => (fs, .err "KeyError: 'PORT'")
  | some content =>
    let fs1 : FS := { fs with avail := setKey fs.avail name content }
    if fs1.enabled.any (fun p => p.1 = name) then
      ({ fs1 with enabled := setKey (fs1.enabled.filter (fun p => p.1 ≠ name)) name content },
       .ok ("-----> Enabling '" ++ app ++ ":" ++ kind ++ "_" ++ toString ordinal ++ "'"))
    else (fs1, .err ("unlink: no such file '" ++ name ++ "'"))

/-- The worker loop of `create_workers` (its body names `create_worker`, an
undefined name; it is read as the defined `single_worker`): workers are
processed in order with increasing ordinals, an exception aborts the loop. -/
def run_workers (root app : String) (env : List (String × String)) :
    List (String × String) → Nat → FS → FS × Outcome
  | [], _, fs => (fs, .ok "workers created")
  | (k, v) :: rest, ordinal, fs =>
    match single_worker root app k v env ordinal fs with
    | (fs1, .ok _) => run_workers root app env rest (ordinal + 1) fs1
    | (fs1, o) => (fs1, o)

/-- `create_workers`: build the layered environment, then create every
worker starting at ordinal 1. -/
def create_workers (root app : String) (workers : List (String × String))
    (path : String) (port : Nat) (envFile customSettings : Option (List String))
    (fs : FS) : FS × Outcome :=
  let env := create_workers_env path (pathJoin (ENV_ROOT root) app) port envFile customSettings
  run_workers root app env workers 1 fs

/-- `do_deploy` on an already-sanitized name (`deploy_app` sanitizes before
calling).  The git pull / force checkout are external; `files` is the
checkout content they produce.  `deploy_python`'s virtualenv and pip steps
are external and lead to `create_workers`. -/
def do_deploy (root app path : String) (port : Nat)
    (envFile customSettings : Option (List String)) (fs : FS) : FS × Outcome :=
  match getVal fs.apps app with
  | none => (fs, .err ("Error: app '" ++ app ++ "' not found."))
  | some files =>
    match (parse_procfile files.procfile).1 with
    | none => (fs, .err ("Error: Procfile not found for app '" ++ app ++ "'."))
    | some workers =>
      if files.requirements then
        create_workers root app workers path port envFile customSettings fs
      else (fs, .err "-----> Could not detect runtime!")

/-- The copy loop shared by `enable_app` and `restart_app`:
`for a in matches: shutil.copy(a, join(UWSGI_ENABLED, app))` — every matched
available unit is copied onto the single destination file named exactly
`app` (no `.ini` suffix) in the enabled directory. -/
def copy_into_enabled (app : String) (hits : List (String × Content)) (fs : FS) : FS :=
  hits.foldl (fun s p => { s with enabled := setKey s.enabled app p.2 }) fs

/-- `enable_app` (CLI `enable`): note the source copies when the enabled glob
is non-empty and reports "already enabled" when it is empty. -/
def enable_app (app0 : String) (fs : FS) : FS × Outcome :=
  let app := sanitize_app_name app0
  let enabledMatches := fs.enabled.filter (fun p => iniGlobMatch app p.1)
  let availMatches := fs.avail.filter (fun p => iniGlobMatch app p.1)
  if (getVal fs.apps app).isSome then
    if enabledMatches.length ≠ 0 then
      if availMatches.length ≠ 0 then
        (copy_into_enabled app availMatches fs, .warn ("Enabling app '" ++ app ++ "'..."))
      else (fs, .err "Error: app '%s' is not configured.")
    else (fs, .warn "Warning: app '%s' is already enabled, skipping.")
  else (fs, .err "Error: app '%s' does not exist.")

/-- `disable_app` (CLI `disable`): remove every enabled unit matching the
app glob, or report "not deployed". -/
def disable_app (app0 : String) (fs : FS) : FS × Outcome :=
  let app := sanitize_app_name app0
  let config := fs.enabled.filter (fun p => iniGlobMatch app p.1)
  if config.length ≠ 0 then
    ({ fs with enabled := fs.enabled.filter (fun p => ¬ iniGlobMatch app p.1) },
     .warn ("Disabling app '" ++ app ++ "'..."))
  else (fs, .err ("Error: app '" ++ app ++ "' not deployed!"))

/-- `restart_app` (CLI `restart`): unlink every enabled match, `sleep(5)`
(outside the state), then run the shared copy loop over the available
matches. -/
def restart_app (app0 : String) (fs : FS) : FS × Outcome :=
  let app := sanitize_app_name app0
  let enabledMatches := fs.enabled.filter (fun p => iniGlobMatch app p.1)
  let availMatches := fs.avail.filter (fun p => iniGlobMatch app p.1)
  if enabledMatches.length ≠ 0 then
    let fs1 : FS := { fs with enabled := fs.enabled.filter (fun p => ¬ iniGlobMatch app p.1) }
    let fs2 := if availMatches.length ≠ 0 then copy_into_enabled app availMatches fs1 else fs1
    (fs2, .warn ("Restarting app '" ++ app ++ "'..."))
  else (fs, .err ("Error: app '" ++ app ++ "' not enabled!"))

/-- `destroy_app` (CLI `destroy`) at the granularity of per-app entries:
remove the app's subdirectory of each of the four roots and every unit file
matching the app glob in both uwsgi directories.  (The path-level behaviour
of `join(root, app)` for the empty sanitized name is modelled separately on
`DiskFS` below.) -/
def destroy_app (app0 : String) (fs : FS) : FS :=
  let app := sanitize_app_name app0
  { apps := fs.apps.filter (fun p => p.1 ≠ app),
    repos := fs.repos.filter (fun r => r ≠ app),
    envs := fs.envs.filter (fun r => r ≠ app),
    logs := fs.logs.filter (fun r => r ≠ app),
    avail := fs.avail.filter (fun p => ¬ iniGlobMatch app p.1),
    enabled := fs.enabled.filter (fun p => ¬ iniGlobMatch app p.1) }

end Piku

namespace Piku

/-- Path-level filesystem for the `destroy` command: the existing
directories (stored without trailing slash) and files, as absolute paths. -/
structure DiskFS where
  dirs : List String
  files : List String
deriving DecidableEq, Repr

/-- Strip one trailing slash (`exists` and `rmtree` accept `dir/`). -/
def normSlash (p : String) : String :=
  if p.data.getLast? = some '/' then ⟨p.data.dropLast⟩ else p

/-- `os.path.exists`. -/
def existsPath (fs : DiskFS) (p : String) : Bool :=
  fs.dirs.contains (normSlash p) || fs.files.contains p

/-- `q` lies in the tree rooted at the (already normalised) path `p`. -/
def underTree (p q : String) : Bool :=
  q == p || (p ++ "/").data.isPrefixOf q.data

/-- `shutil.rmtree`: remove the directory tree rooted at `p`. -/
def rmtree (p : String) (fs : DiskFS) : DiskFS :=
  let q := normSlash p
  { dirs := fs.dirs.filter (fun d => ¬ underTree q d),
    files := fs.files.filter (fun f => ¬ underTree q f) }

/-- glob's hidden-file rule: a name beginning with `.` is matched only when
the pattern itself begins with `.` (`glob1` drops dot-led names unless the
pattern is dot-led). -/
def globHiddenOk (pat name : List Char) : Bool :=
  if name.head? = some '.' then decide (pat.head? = some '.') else true

/-- The glob pattern `join(dir, app ++ "*.ini")` on an absolute path `f`:
the joined prefix is literal, the matched remainder contains no `/` (`*`
does not cross directories), the basename remainder ends in `.ini`, and the
hidden-file rule holds between the pattern's basename `app ++ "*.ini"` and
the file's basename. -/
def pathGlobIni (dir app f : String) : Bool :=
  (pathJoin dir app).data.isPrefixOf f.data &&
    (".ini".data.isSuffixOf (f.data.drop (pathJoin dir app).data.length) &&
      ((f.data.drop (pathJoin dir app).data.length).all (fun ch => ch ≠ '/') &&
        globHiddenOk (app.data ++ "*.ini".data) (f.data.drop (dir ++ "/").data.length)))

/-- One iteration of `destroy_app`'s directory loop:
`if exists(p): rmtree(p)` for `p = join(x, app)`. -/
def destroyDirStep (app : String) (s : DiskFS) (x : String) : DiskFS :=
  let p := pathJoin x app
  if existsPath s p then rmtree p s else s

/-- `destroy_app` at path level, exposing how `join(root, app)` behaves for
the empty sanitized name: remove (when they exist) the four per-app
directory trees, then every file matching the app glob in the two uwsgi
directories. -/
def destroy_app_disk (root app0 : String) (fs : DiskFS) : DiskFS :=
  let app := sanitize_app_name app0
  let fs1 := [APP_ROOT root, GIT_ROOT root, ENV_ROOT root, LOG_ROOT root].foldl
    (destroyDirStep app) fs
  { fs1 with files := fs1.files.filter (fun f =>
      ¬ (pathGlobIni (UWSGI_AVAILABLE root) app f || pathGlobIni (UWSGI_ENABLED root) app f)) }

/-! ### Fixture states -/

/-- Checkout fixture with no Procfile. -/
def noFiles : AppFiles := { procfile := none, requirements := false }

/-- A configured-but-disabled state for `myapp`: checkout present, one
available unit, no enabled unit. -/
def fsDisabled : FS :=
  { apps := [("myapp", noFiles)], repos := [], envs := [], logs := [],
    avail := [("myapp_web_1.ini", [("x", "y")])], enabled := [] }

/-- An already-enabled state for `myapp`. -/
def fsEnabled : FS :=
  { apps := [("myapp", noFiles)], repos := [], envs := [], logs := [],
    avail := [("myapp_web_1.ini", [("x", "y")])],
    enabled := [("myapp_web_1.ini", [("x", "y")])] }

/-- Two enabled worker kinds for `myapp`, with matching available copies. -/
def fsTwoWorkers : FS :=
  { apps := [("myapp", noFiles)], repos := [], envs := [], logs := [],
    avail := [("myapp_web_1.ini", [("a", "1")]), ("myapp_worker_1.ini", [("b", "2")])],
    enabled := [("myapp_web_1.ini", [("a", "1")]), ("myapp_worker_1.ini", [("b", "2")])] }

/-- First-deploy state: checkout with a Procfile and a requirements.txt, no
units generated yet. -/
def fsFirstDeploy : FS :=
  { apps := [("myapp", { procfile := some ["worker: python run.py"], requirements := true })],
    repos := [], envs := [], logs := [], avail := [], enabled := [] }

/-! ### Claim theorems -/

/-- C1: the claim fails on the code.  With the checkout present, one
available unit and no enabled unit (configured-disabled), `enable` reports
the "already enabled" warning and changes nothing; and on an already-enabled
application it is not a warned no-op: it runs the copy loop, adding the
collapsed file named exactly after the app to the enabled directory.  The
source's conditions are inverted. -/
theorem claim_C1_enable_inverted :
    enable_app "myapp" fsDisabled =
      (fsDisabled, .warn "Warning: app '%s' is already enabled, skipping.") ∧
    (enable_app "myapp" fsEnabled).1.enabled =
      [("myapp_web_1.ini", [("x", "y")]), ("myapp", [("x", "y")])] := by decide

/-- C2: the claim fails on the code.  `restart` deletes both enabled units
but does not restore them: the copy loop writes both available contents onto
the single destination file named `myapp` (no `.ini` suffix), so the enabled
directory ends with that one non-unit file holding the last copied content
and with no enabled `.ini` unit.  The available set is untouched, and with
no enabled units `restart` does fail with "not enabled" and changes
nothing. -/
theorem claim_C2_restart_no_restore :
    (restart_app "myapp" fsTwoWorkers).1.enabled = [("myapp", [("b", "2")])] ∧
    (restart_app "myapp" fsTwoWorkers).1.avail = fsTwoWorkers.avail ∧
    restart_app "myapp" fsDisabled = (fsDisabled, .err "Error: app 'myapp' not enabled!") := by
  decide

/-- C3: the claim fails on the code.  On the very first deploy (no enabled
unit exists yet) the generated unit is written to the available location,
but `os.unlink(enabled)` raises before `shutil.copyfile` runs, so the deploy
aborts with an error and no enabled copy is ever placed: deploy does not
reach configured-enabled. -/
theorem claim_C3_first_deploy_unlink :
    ((do_deploy "/piku" "myapp" "/usr/bin" 4242 none none fsFirstDeploy).1.avail).map Prod.fst
        = ["myapp_worker_1.ini"] ∧
    (do_deploy "/piku" "myapp" "/usr/bin" 4242 none none fsFirstDeploy).1.enabled = [] ∧
    (do_deploy "/piku" "myapp" "/usr/bin" 4242 none none fsFirstDeploy).2.isErr = true := by
  decide

end Piku

namespace Piku

/-! ### Association-list lemmas -/

theorem getVal_map_overwrite_ne {α : Type} (m : List (String × α)) (k k' : String)
    (v : α) (h : k ≠ k') :
    getVal (m.map (fun p => if p.1 = k then (k, v) else p)) k' = getVal m k' := by
  induction m with
  | nil => rfl
  | cons p m ih =>
    simp only [List.map_cons]
    by_cases hp : p.1 = k
    · rw [if_pos hp]
      simp only [getVal]
      rw [if_neg h, if_neg (hp ▸ h), ih]
    · rw [if_neg hp]
      simp only [getVal, ih]

theorem getVal_map_overwrite_eq {α : Type} (m : List (String × α)) (k : String) (v : α)
    (h : m.any (fun p => p.1 = k) = true) :
    getVal (m.map (fun p => if p.1 = k then (k, v) else p)) k = some v := by
  induction m with
  | nil => simp at h
  | cons p m ih =>
    simp only [List.map_cons]
    by_cases hp : p.1 = k
    · rw [if_pos hp]
      simp [getVal]
    · rw [if_neg hp]
      simp only [List.any_cons, Bool.or_eq_true, decide_eq_true_eq] at h
      rcases h with h | h
      · exact absurd h hp
      · simp only [getVal, if_neg hp]
        exact ih h

theorem getVal_of_any_false {α : Type} (m : List (String × α)) (k : String)
    (h : m.any (fun p => p.1 = k) = false) : getVal m k = none := by
  induction m with
  | nil => rfl
  | cons p m ih =>
    simp only [List.any_cons, Bool.or_eq_false_iff, decide_eq_false_iff_not] at h
    simp only [getVal, if_neg h.1, ih h.2]

theorem getVal_append {α : Type} (m n : List (String × α)) (k : String) :
    getVal (m ++ n) k = (getVal m k).or (getVal n k) := by
  induction m with
  | nil => simp [getVal, Option.none_or]
  | cons p m ih =>
    by_cases hp : p.1 = k
    · simp only [List.cons_append, getVal, if_pos hp, Option.or]
    · simp only [List.cons_append, getVal, if_neg hp]
      exact ih

/-- `setKey` behaves like Python dict assignment under lookup. -/
theorem getVal_setKey {α : Type} (m : List (String × α)) (k : String) (v : α)
    (k' : String) :
    getVal (setKey m k v) k' = if k = k' then some v else getVal m k' := by
  unfold setKey
  by_cases hany : m.any (fun p => p.1 = k) = true
  · rw [if_pos hany]
    by_cases hk : k = k'
    · subst hk; rw [if_pos rfl, getVal_map_overwrite_eq m k v hany]
    · rw [if_neg hk, getVal_map_overwrite_ne m k k' v hk]
  · rw [if_neg hany, getVal_append]
    have hfalse : m.any (fun p => p.1 = k) = false := Bool.eq_false_iff.mpr hany
    by_cases hk : k = k'
    · subst hk
      rw [getVal_of_any_false m k hfalse]
      simp [getVal, Option.none_or]
    · have h1 : getVal [(k, v)] k' = none := by simp [getVal, hk]
      rw [h1, Option.or_none, if_neg hk]

/-- Membership in a `setKey` result. -/
theorem mem_setKey {α : Type} (m : List (String × α)) (k : String) (v : α)
    (q : String × α) :
    q ∈ setKey m k v ↔ q = (k, v) ∨ (q.1 ≠ k ∧ q ∈ m) := by
  unfold setKey
  by_cases hany : m.any (fun p => p.1 = k) = true
  · rw [if_pos hany]
    simp only [List.mem_map]
    constructor
    · rintro ⟨p, hp, hfp⟩
      by_cases hpk : p.1 = k
      · left; rw [if_pos hpk] at hfp; exact hfp.symm
      · right; rw [if_neg hpk] at hfp; exact ⟨hfp ▸ hpk, hfp ▸ hp⟩
    · rintro (rfl | ⟨hq, hqm⟩)
      · obtain ⟨p, hp, hpk⟩ := List.any_eq_true.mp hany
        simp only [decide_eq_true_eq] at hpk
        exact ⟨p, hp, by rw [if_pos hpk]⟩
      · exact ⟨q, hqm, by rw [if_neg hq]⟩
  · rw [if_neg hany]
    have hall := List.any_eq_false.mp (Bool.eq_false_iff.mpr hany)
    simp only [List.mem_append, List.mem_singleton]
    constructor
    · rintro (hq | rfl)
      · right
        refine ⟨?_, hq⟩
        simpa [decide_eq_true_eq] using hall q hq
      · left; rfl
    · rintro (rfl | ⟨_, hq⟩)
      · right; rfl
      · left; exact hq

theorem getVal_delKey {α : Type} (m : List (String × α)) (k k' : String) :
    getVal (delKey m k) k' = if k' = k then none else getVal m k' := by
  induction m with
  | nil => simp [delKey, getVal]
  | cons p m ih =>
    by_cases hpk : p.1 = k
    · have h1 : delKey (p :: m) k = delKey m k := by
        simp [delKey, List.filter_cons, hpk]
      rw [h1, ih]
      by_cases hk : k' = k
      · rw [if_pos hk, if_pos hk]
      · rw [if_neg hk, if_neg hk, getVal, if_neg (fun h => hk (h.symm.trans hpk))]
    · have h1 : delKey (p :: m) k = p :: delKey m k := by
        simp [delKey, List.filter_cons, hpk]
      rw [h1]
      by_cases hpq : p.1 = k'
      · have hk : ¬ k' = k := fun h => hpk (hpq.trans h)
        simp [getVal, hpq, hk]
      · simp only [getVal, if_neg hpq, ih]

/-- Entries whose key differs from `app` are untouched by the copy loop's
repeated `setKey` at key `app`. -/
theorem mem_foldl_setKey {α : Type} (app : String) (g : String × α → α) :
    ∀ (xs : List (String × α)) (l : List (String × α)) (q : String × α),
      q ∈ xs.foldl (fun acc p => setKey acc app (g p)) l → q.1 ≠ app → q ∈ l := by
  intro xs
  induction xs with
  | nil => intro l q hq _; exact hq
  | cons x xs ih =>
    intro l q hq hne
    have h1 := ih (setKey l app (g x)) q hq hne
    rcases (mem_setKey l app (g x) q).mp h1 with h | h
    · exact absurd (congrArg Prod.fst h) hne
    · exact h.2

/-- The copy loop only changes the `enabled` field, by folding `setKey` at
the destination name over the matched contents. -/
theorem copy_into_enabled_spec (app : String) (xs : List (String × Content)) (fs : FS) :
    copy_into_enabled app xs fs
      = { fs with enabled := xs.foldl (fun l p => setKey l app p.2) fs.enabled } := by
  induction xs generalizing fs with
  | nil => rfl
  | cons x xs ih =>
    have h1 : copy_into_enabled app (x :: xs) fs
        = copy_into_enabled app xs { fs with enabled := setKey fs.enabled app x.2 } := rfl
    rw [h1, ih]
    rfl

end Piku

namespace Piku

/-! ### Manifest parser claims (C5, C6) -/

/-- The recognised declaration a single manifest line makes for kind `k`. -/
def declOf (l k : String) : Option String :=
  match splitOnce ':' l with
  | some (a, b) => if pyStrip a ∈ procKinds ∧ pyStrip a = k then some (pyStrip b) else none
  | none => none

/-- The command of the last declaration of kind `k` in a manifest: lines
further down are consulted first. -/
def lastDecl : List String → String → Option String
  | [], _ => none
  | l :: ls, k => (lastDecl ls k).or (declOf l k)

theorem getVal_procLine (m : List (String × String)) (l k : String) :
    getVal (procLine m l) k = (declOf l k).or (getVal m k) := by
  cases hsp : splitOnce ':' l with
  | none => simp [procLine, declOf, hsp, Option.none_or]
  | some p =>
    obtain ⟨a, b⟩ := p
    by_cases hk : pyStrip a ∈ procKinds
    · by_cases he : pyStrip a = k
      · subst he
        simp [procLine, declOf, hsp, hk, getVal_setKey, Option.or]
      · simp [procLine, declOf, hsp, hk, he, getVal_setKey, Option.none_or]
    · simp [procLine, declOf, hsp, hk, Option.none_or]

theorem getVal_procfile_foldl (ls : List String) (m : List (String × String))
    (k : String) :
    getVal (ls.foldl procLine m) k = (lastDecl ls k).or (getVal m k) := by
  induction ls generalizing m with
  | nil => simp [lastDecl, Option.none_or]
  | cons l ls ih =>
    simp only [List.foldl_cons, lastDecl]
    rw [ih, getVal_procLine]
    exact (Option.or_assoc).symm

theorem warnFoldl_shift (ls : List String) (acc : List String) :
    ls.foldl (fun a l => a ++ procWarn l) acc
      = acc ++ ls.foldl (fun a l => a ++ procWarn l) [] := by
  induction ls generalizing acc with
  | nil => simp
  | cons l ls ih =>
    simp only [List.foldl_cons]
    rw [ih (acc ++ procWarn l), ih ([] ++ procWarn l), List.nil_append,
      List.append_assoc]

/-- C5: lookup in the scanned worker map equals the last recognised
declaration of that kind — later duplicate declarations overwrite earlier
ones, so at most one command per kind survives; and a manifest declaring
both `web` and `wsgi` parses to a map containing `wsgi`'s command and no
`web` entry. -/
theorem claim_C5_last_wins_wsgi_beats_web (ls : List String) :
    (∀ k, getVal (ls.foldl procLine []) k = lastDecl ls k) ∧
    (∀ cw cb, lastDecl ls "wsgi" = some cw → lastDecl ls "web" = some cb →
      ∃ w, (parse_procfile (some ls)).1 = some w ∧
        getVal w "wsgi" = some cw ∧ getVal w "web" = none) := by
  have hfold : ∀ k, getVal (ls.foldl procLine []) k = lastDecl ls k := by
    intro k
    rw [getVal_procfile_foldl]
    simp [getVal, Option.or_none]
  refine ⟨hfold, ?_⟩
  intro cw cb hw hb
  have h1 : getVal (ls.foldl procLine []) "wsgi" = some cw := (hfold _).trans hw
  have h2 : getVal (ls.foldl procLine []) "web" = some cb := (hfold _).trans hb
  refine ⟨delKey (ls.foldl procLine []) "web", ?_, ?_, ?_⟩
  · show procResult (ls.foldl procLine []) = _
    have hne : ¬ (ls.foldl procLine []).length = 0 := by
      cases hls : ls.foldl procLine [] with
      | nil => rw [hls] at h1; simp [getVal] at h1
      | cons q m => simp [hls]
    unfold procResult
    rw [if_neg hne, h1, h2]
    simp
  · rw [getVal_delKey]
    simp [h1]
  · rw [getVal_delKey]
    simp

/-- C5 witness: on the manifest `web: gunicorn app` / `wsgi: app:app`
the map keeps the wsgi command only. -/
theorem claim_C5_witness :
    getVal (["web: gunicorn app", "wsgi: app:app"].foldl procLine []) "web"
        = lastDecl ["web: gunicorn app", "wsgi: app:app"] "web" ∧
    ∃ w, (parse_procfile (some ["web: gunicorn app", "wsgi: app:app"])).1 = some w ∧
      getVal w "wsgi" = some "app:app" ∧ getVal w "web" = none :=
  ⟨(claim_C5_last_wins_wsgi_beats_web _).1 "web",
   (claim_C5_last_wins_wsgi_beats_web _).2 "app:app" "gunicorn app"
     (by decide) (by decide)⟩

/-- C6 counterexample: the claim says a line whose left side is not a
recognised kind is reported with a non-fatal warning; on the manifest
consisting of the single line `foo: bar` the code emits no warning at all
(its `except` handler, the only path to the warning `echo`, is reached only
by lines without a `:` separator). -/
theorem claim_C6_counterexample :
    (parse_procfile (some ["foo: bar"])).2 = [] ∧
    (parse_procfile (some ["foo: bar"])).1 = none := by decide

/-- C6 (amended): the parser returns absent when the manifest file is
missing and when the scanned worker map is empty; a line with a `:` whose
trimmed left side is not a recognised kind is skipped silently (no warning,
the parse of the remaining lines is unchanged); a line without a `:`
separator is skipped with the unrecognized-declaration warning and does not
change the parsed result. -/
theorem claim_C6_amended :
    parse_procfile none = (none, []) ∧
    (∀ ls, ls.foldl procLine [] = [] → (parse_procfile (some ls)).1 = none) ∧
    (∀ pre post l a b, splitOnce ':' l = some (a, b) → pyStrip a ∉ procKinds →
        parse_procfile (some (pre ++ l :: post)) = parse_procfile (some (pre ++ post))) ∧
    (∀ pre post l, splitOnce ':' l = none →
        (parse_procfile (some (pre ++ l :: post))).1
            = (parse_procfile (some (pre ++ post))).1 ∧
        ("Warning: unrecognized Procfile declaration '" ++ l ++ "'")
          ∈ (parse_procfile (some (pre ++ l :: post))).2) := by
  refine ⟨rfl, ?_, ?_, ?_⟩
  · intro ls h0
    show procResult (ls.foldl procLine []) = none
    rw [h0]
    rfl
  · intro pre post l a b hsp hk
    have hline : ∀ m, procLine m l = m := by
      intro m; simp [procLine, hsp, hk]
    have hwarn : procWarn l = [] := by simp [procWarn, hsp]
    show (procResult _, _) = (procResult _, _)
    rw [List.foldl_append, List.foldl_cons, hline, ← List.foldl_append,
      List.foldl_append (fun a l => a ++ procWarn l), List.foldl_cons, hwarn,
      List.append_nil, ← List.foldl_append]
  · intro pre post l hsp
    have hline : ∀ m, procLine m l = m := by
      intro m; simp [procLine, hsp]
    constructor
    · show procResult _ = procResult _
      rw [List.foldl_append, List.foldl_cons, hline, ← List.foldl_append]
    · show _ ∈ (pre ++ l :: post).foldl (fun a l => a ++ procWarn l) []
      rw [List.foldl_append, List.foldl_cons,
        warnFoldl_shift post (List.foldl (fun a l => a ++ procWarn l) [] pre ++ procWarn l)]
      simp [procWarn, hsp]

/-- C6 witness: concrete instances of the amended claim — `foo` declarations
with a separator are silently skipped, a separator-less line is warned
about, and an all-unrecognised manifest parses to absent. -/
theorem claim_C6_witness :
    (parse_procfile (some ["foo: bar", "web: x"])).1 = none ∨
    (parse_procfile (some (["web: x"] ++ "foo: bar" :: []))
        = parse_procfile (some (["web: x"] ++ [])) ∧
      (parse_procfile (some ["nocolon"])).1 = none ∧
      ("Warning: unrecognized Procfile declaration 'nocolon'")
        ∈ (parse_procfile (some ([] ++ "nocolon" :: []))).2) :=
  Or.inr ⟨claim_C6_amended.2.2.1 ["web: x"] [] "foo: bar" "foo" " bar"
      (by decide) (by decide),
    claim_C6_amended.2.1 ["nocolon"] (by decide),
    (claim_C6_amended.2.2.2 [] [] "nocolon" (by decide)).2⟩

end Piku

namespace Piku

/-! ### Environment merge (C7) and deploy error paths (C8) -/

/-- Value of the last binding of `k` in an association list (the binding
`dict.update` leaves in force). -/
def lastVal {α : Type} : List (String × α) → String → Option α
  | [], _ => none
  | p :: m, k => (lastVal m k).or (if p.1 = k then some p.2 else none)

theorem getVal_updateKV {α : Type} (m m' : List (String × α)) (k : String) :
    getVal (updateKV m m') k = (lastVal m' k).or (getVal m k) := by
  induction m' generalizing m with
  | nil => simp [updateKV, lastVal, Option.none_or]
  | cons p m' ih =>
    have h1 : updateKV m (p :: m') = updateKV (setKey m p.1 p.2) m' := rfl
    rw [h1, ih, getVal_setKey]
    have h2 : (if p.1 = k then some p.2 else getVal m k)
        = (if p.1 = k then some p.2 else none).or (getVal m k) := by
      by_cases hp : p.1 = k <;> simp [hp, Option.or, Option.none_or]
    rw [h2, lastVal]
    exact (Option.or_assoc).symm

theorem lastVal_of_not_mem_keys {α : Type} (m : List (String × α)) (k : String)
    (h : k ∉ m.map Prod.fst) : lastVal m k = none := by
  induction m with
  | nil => rfl
  | cons p m ih =>
    simp only [List.map_cons, List.mem_cons, not_or] at h
    have hp : ¬ p.1 = k := fun hp => h.1 hp.symm
    rw [lastVal, ih h.2, if_neg hp, Option.none_or]

theorem lastVal_eq_getVal {α : Type} (m : List (String × α)) (k : String)
    (h : (m.map Prod.fst).Nodup) : lastVal m k = getVal m k := by
  induction m with
  | nil => rfl
  | cons p m ih =>
    simp only [List.map_cons, List.nodup_cons] at h
    by_cases hp : p.1 = k
    · rw [lastVal, getVal, if_pos hp, if_pos hp,
        lastVal_of_not_mem_keys m k (hp ▸ h.1), Option.none_or]
    · rw [lastVal, getVal, if_neg hp, if_neg hp, Option.or_none, ih h.2]

theorem keys_setKey {α : Type} (m : List (String × α)) (k : String) (v : α)
    (h : (m.map Prod.fst).Nodup) : ((setKey m k v).map Prod.fst).Nodup := by
  unfold setKey
  by_cases hany : m.any (fun p => p.1 = k) = true
  · rw [if_pos hany]
    have h1 : (m.map (fun p => if p.1 = k then (k, v) else p)).map Prod.fst
        = m.map Prod.fst := by
      rw [List.map_map]
      apply List.map_congr_left
      intro p _
      by_cases hp : p.1 = k
      · simp [Function.comp, hp]
      · simp [Function.comp, hp]
    rw [h1]; exact h
  · rw [if_neg hany]
    have hall := List.any_eq_false.mp (Bool.eq_false_iff.mpr hany)
    rw [List.map_append]
    simp only [List.nodup_append, List.map_cons, List.map_nil]
    refine ⟨h, List.nodup_singleton k, ?_⟩
    intro x hx
    simp only [List.mem_singleton]
    obtain ⟨p, hp, rfl⟩ := List.mem_map.mp hx
    intro hk
    exact absurd (by simpa using hall p hp) (by simp [hk])

theorem keys_parse_settings (ls : List String) :
    ((parse_settings ls).map Prod.fst).Nodup := by
  have h : ∀ acc : List (String × String), (acc.map Prod.fst).Nodup →
      ((ls.foldl settingsLine acc).map Prod.fst).Nodup := by
    induction ls with
    | nil => intro acc hacc; exact hacc
    | cons l ls ih =>
      intro acc hacc
      refine ih _ ?_
      unfold settingsLine
      cases hsp : splitOnce '=' l with
      | none => exact hacc
      | some p => exact keys_setKey _ _ _ hacc
  exact h [] (by simp)

theorem getVal_update_settings (m : List (String × String)) (ls : List String)
    (k : String) :
    getVal (updateKV m (parse_settings ls)) k
      = (getVal (parse_settings ls) k).or (getVal m k) := by
  rw [getVal_updateKV, lastVal_eq_getVal _ _ (keys_parse_settings ls)]

end Piku

namespace Piku

/-- C7: in the environment `create_workers` resolves, a key bound in the
operator-override settings file wins over the same key in the shipped `ENV`
file and over the process-level defaults (`PATH`, virtualenv location,
allocated port); a key bound only in the shipped file wins over the
defaults; the `PORT` key is always present; and when neither file rebinds
`PORT` its value is the freshly allocated port of this deploy. -/
theorem claim_C7_env_precedence (path vpath : String) (port : Nat)
    (shipped override : List String) (k v : String) :
    (getVal (parse_settings override) k = some v →
      getVal (create_workers_env path vpath port (some shipped) (some override)) k
        = some v) ∧
    (getVal (parse_settings override) k = none →
      getVal (parse_settings shipped) k = some v →
      getVal (create_workers_env path vpath port (some shipped) (some override)) k
        = some v) ∧
    (getVal (create_workers_env path vpath port (some shipped) (some override))
        "PORT").isSome = true ∧
    (getVal (parse_settings override) "PORT" = none →
      getVal (parse_settings shipped) "PORT" = none →
      getVal (create_workers_env path vpath port (some shipped) (some override)) "PORT"
        = some (toString port)) := by
  have henv : ∀ k', getVal (create_workers_env path vpath port (some shipped) (some override)) k'
      = (getVal (parse_settings override) k').or
          ((getVal (parse_settings shipped) k').or
            (getVal [("PATH", path), ("VIRTUAL_ENV", vpath), ("PORT", toString port)] k')) := by
    intro k'
    show getVal (updateKV (updateKV _ (parse_settings shipped)) (parse_settings override)) k' = _
    rw [getVal_update_settings, getVal_update_settings]
  have hdef : getVal [("PATH", path), ("VIRTUAL_ENV", vpath), ("PORT", toString port)] "PORT"
      = some (toString port) := rfl
  refine ⟨?_, ?_, ?_, ?_⟩
  · intro h; rw [henv, h]; rfl
  · intro h1 h2; rw [henv, h1, h2]; rfl
  · rw [henv, hdef]
    cases getVal (parse_settings override) "PORT" <;>
      cases getVal (parse_settings shipped) "PORT" <;> rfl
  · intro h1 h2
    rw [henv, h1, h2, hdef]
    rfl

/-- C7 witness: `A = o` in the override file beats `A = s` in the shipped
file; `PORT` is present; a shipped-only key survives; an unoverridden `PORT`
is the fresh port. -/
theorem claim_C7_witness :
    getVal (create_workers_env "/usr/bin" "/piku/envs/a" 7
        (some ["PORT = 9", "A = s"]) (some ["A = o"])) "A" = some "o" ∧
    (getVal (create_workers_env "/usr/bin" "/piku/envs/a" 7
        (some ["PORT = 9", "A = s"]) (some ["A = o"])) "PORT").isSome = true ∧
    getVal (create_workers_env "/usr/bin" "/piku/envs/a" 7
        (some ["B = s"]) (some [])) "B" = some "s" ∧
    getVal (create_workers_env "/usr/bin" "/piku/envs/a" 7
        (some ["B = s"]) (some [])) "PORT" = some "7" :=
  ⟨(claim_C7_env_precedence "/usr/bin" "/piku/envs/a" 7 ["PORT = 9", "A = s"]
      ["A = o"] "A" "o").1 (by decide),
   (claim_C7_env_precedence "/usr/bin" "/piku/envs/a" 7 ["PORT = 9", "A = s"]
      ["A = o"] "A" "o").2.2.1,
   (claim_C7_env_precedence "/usr/bin" "/piku/envs/a" 7 ["B = s"] [] "B" "s").2.1
      (by decide) (by decide),
   (claim_C7_env_precedence "/usr/bin" "/piku/envs/a" 7 ["B = s"] [] "PORT" "s").2.2.2
      (by decide) (by decide)⟩

/-- C8: deploy of an application whose checkout does not exist reports the
"not found" error and leaves the state untouched; deploy of an existing
application whose manifest yields no workers reports "Procfile not found"
and performs no environment build and no configuration generation — the
state, in particular the available and enabled units, is returned
unchanged. -/
theorem claim_C8_deploy_preconditions (root app path : String) (port : Nat)
    (envFile customSettings : Option (List String)) (fs : FS) :
    (getVal fs.apps app = none →
      do_deploy root app path port envFile customSettings fs
        = (fs, .err ("Error: app '" ++ app ++ "' not found."))) ∧
    (∀ files, getVal fs.apps app = some files →
      (parse_procfile files.procfile).1 = none →
      do_deploy root app path port envFile customSettings fs
        = (fs, .err ("Error: Procfile not found for app '" ++ app ++ "'."))) := by
  constructor
  · intro h
    unfold do_deploy
    rw [h]
  · intro files h1 h2
    unfold do_deploy
    rw [h1]
    dsimp only
    rw [h2]

/-- C8 witness: a missing checkout and a checkout without a Procfile, on the
configured-disabled fixture state. -/
theorem claim_C8_witness :
    do_deploy "/piku" "ghost" "/usr/bin" 7 none none fsDisabled
        = (fsDisabled, .err "Error: app 'ghost' not found.") ∧
    do_deploy "/piku" "myapp" "/usr/bin" 7 none none fsDisabled
        = (fsDisabled, .err "Error: Procfile not found for app 'myapp'.") :=
  ⟨(claim_C8_deploy_preconditions "/piku" "ghost" "/usr/bin" 7 none none
      fsDisabled).1 (by decide),
   (claim_C8_deploy_preconditions "/piku" "myapp" "/usr/bin" 7 none none
      fsDisabled).2 noFiles (by decide) (by decide)⟩

end Piku

namespace Piku

/-! ### Enabled ⊆ available invariant (C4) -/

/-- `.ini`-named files: the shape of every generated unit name and of the
files the selection globs can match. -/
def iniName (n : String) : Bool := ".ini".data.isSuffixOf n.data

/-- Every enabled `.ini` unit (name and content) is also an available
unit. -/
@[reducible] def enabledSubAvail (fs : FS) : Prop :=
  ∀ p ∈ fs.enabled, iniName p.1 = true → p ∈ fs.avail

/-- C4 counterexample: the claim as stated — after every operation the set
of enabled files is a subset of the available files — fails: starting from
an enabled state where enabled ⊆ available holds, `enable` copies the
available unit onto the file named exactly `myapp` in the enabled
directory, and no available file of that name exists. -/
theorem claim_C4_counterexample :
    (∀ p ∈ fsEnabled.enabled, p ∈ fsEnabled.avail) ∧
    ¬ (∀ p ∈ (enable_app "myapp" fsEnabled).1.enabled,
        p ∈ (enable_app "myapp" fsEnabled).1.avail) := by decide

/-- C4 (amended): restricted to `.ini`-named unit files — the files the
controller itself selects through its `app*.ini` globs — the subset
invariant enabled ⊆ available is preserved by every operation of the
lifecycle controller (the generation step of deploy, enable, disable,
restart, destroy), provided the sanitized application name passed to
enable/restart does not itself end in `.ini`. -/
theorem claim_C4_amended (root app kind command a0 : String)
    (env : List (String × String)) (ordinal : Nat) (fs : FS)
    (hinv : enabledSubAvail fs) :
    enabledSubAvail (single_worker root app kind command env ordinal fs).1 ∧
    (iniName (sanitize_app_name a0) = false →
      enabledSubAvail (enable_app a0 fs).1) ∧
    enabledSubAvail (disable_app a0 fs).1 ∧
    (iniName (sanitize_app_name a0) = false →
      enabledSubAvail (restart_app a0 fs).1) ∧
    enabledSubAvail (destroy_app a0 fs) := by
  have hcopy : ∀ (fs1 : FS), iniName (sanitize_app_name a0) = false →
      fs1.avail = fs.avail → enabledSubAvail { fs with enabled := fs1.enabled } →
      ∀ (xs : List (String × Content)),
        enabledSubAvail (copy_into_enabled (sanitize_app_name a0) xs fs1) := by
    intro fs1 hini havail hsub xs
    rw [copy_into_enabled_spec]
    intro p hp hpini
    have hpne : p.1 ≠ sanitize_app_name a0 := by
      intro h
      rw [h, hini] at hpini
      exact Bool.false_ne_true hpini
    have hp1 : p ∈ fs1.enabled := mem_foldl_setKey _ Prod.snd xs fs1.enabled p hp hpne
    have h2 : p ∈ fs.avail := hsub p hp1 hpini
    show p ∈ fs1.avail
    rw [havail]
    exact h2
  refine ⟨?_, ?_, ?_, ?_, ?_⟩
  · -- single_worker
    unfold single_worker
    cases hws : worker_settings root app kind command env ordinal with
    | none => exact hinv
    | some content =>
      dsimp only
      set name := app ++ "_" ++ kind ++ "_" ++ toString ordinal ++ ".ini" with hname
      by_cases hany : fs.enabled.any (fun p => p.1 = name) = true
      · rw [if_pos hany]
        intro p hp hpini
        rcases (mem_setKey _ _ _ _).mp hp with rfl | ⟨hpne, hpmem⟩
        · exact (mem_setKey _ _ _ _).mpr (Or.inl rfl)
        · have hpe : p ∈ fs.enabled := (List.mem_filter.mp hpmem).1
          exact (mem_setKey _ _ _ _).mpr (Or.inr ⟨hpne, hinv p hpe hpini⟩)
      · rw [if_neg hany]
        intro p hp hpini
        have hall := List.any_eq_false.mp (Bool.eq_false_iff.mpr hany)
        have hpne : ¬ p.1 = name := by simpa using hall p hp
        exact (mem_setKey _ _ _ _).mpr (Or.inr ⟨hpne, hinv p hp hpini⟩)
  · -- enable_app
    intro hini
    unfold enable_app
    dsimp only
    split
    · split
      · split
        · exact hcopy fs hini rfl hinv _
        · exact hinv
      · exact hinv
    · exact hinv
  · -- disable_app
    unfold disable_app
    dsimp only
    split
    · intro p hp hpini
      exact hinv p (List.mem_filter.mp hp).1 hpini
    · exact hinv
  · -- restart_app
    intro hini
    unfold restart_app
    dsimp only
    split
    · split
      · dsimp only
        refine hcopy
          { fs with enabled :=
              fs.enabled.filter (fun p => ¬ iniGlobMatch (sanitize_app_name a0) p.1) }
          hini rfl ?_ _
        intro p hp hpini
        exact hinv p (List.mem_filter.mp hp).1 hpini
      · intro p hp hpini
        exact hinv p (List.mem_filter.mp hp).1 hpini
    · exact hinv
  · -- destroy_app
    intro p hp hpini
    have h1 := List.mem_filter.mp hp
    exact List.mem_filter.mpr ⟨hinv p h1.1 hpini, h1.2⟩

/-- C4 witness: the amended invariant concretely preserved across all five
operations on the enabled fixture state. -/
theorem claim_C4_witness :
    enabledSubAvail fsEnabled ∧
    enabledSubAvail (single_worker "/piku" "myapp" "worker" "cmd" [] 1 fsEnabled).1 ∧
    enabledSubAvail (enable_app "myapp" fsEnabled).1 ∧
    enabledSubAvail (disable_app "myapp" fsEnabled).1 ∧
    enabledSubAvail (restart_app "myapp" fsEnabled).1 ∧
    enabledSubAvail (destroy_app "myapp" fsEnabled) := by
  have h := claim_C4_amended "/piku" "myapp" "worker" "cmd" "myapp" [] 1 fsEnabled
    (by decide)
  exact ⟨by decide, h.1, h.2.1 (by decide), h.2.2.1, h.2.2.2.1 (by decide), h.2.2.2.2⟩

end Piku

namespace Piku

/-! ### Glob prefix capture (C10) -/

theorem isPrefixOf_eq_true {l1 l2 : List Char} : l1.isPrefixOf l2 = true ↔ l1 <+: l2 :=
  List.isPrefixOf_iff_prefix

theorem iniGlobMatch_of_suffix (a rest : String) (h : ".ini".data <:+ rest.data) :
    iniGlobMatch a (a ++ rest) = true := by
  unfold iniGlobMatch
  rw [String.data_append, List.drop_left, Bool.and_eq_true]
  exact ⟨isPrefixOf_eq_true.mpr (List.prefix_append _ _),
    List.isSuffixOf_iff_suffix.mpr h⟩

theorem append_ne_of_data_ne_nil (a t : String) (ht : t.data ≠ []) : a ++ t ≠ a := by
  intro h
  apply ht
  have h1 : a.data ++ t.data = a.data ++ ([] : List Char) := by
    rw [List.append_nil, ← String.data_append, h]
  exact List.append_cancel_left h1

/-- A state in which application `a ++ t` (of which `a` is a proper prefix)
owns the single configuration unit, available and enabled, while `a` has a
checkout of its own. -/
def fsPrefixPair (a t : String) (files : AppFiles) (c c' : Content) : FS :=
  { apps := [(a, files)], repos := [], envs := [], logs := [],
    avail := [(a ++ t ++ "_web_1.ini", c)],
    enabled := [(a ++ t ++ "_web_1.ini", c')] }

/-- C10: for sanitized application names `a` and `b = a ++ t` (`t ≠ ""`, so
`a` is a proper prefix of `b` and the names are distinct), the `a*.ini` glob
also selects `b`'s configuration units: `disable` invoked on `a` removes
`b`'s enabled unit, `restart` on `a` removes it (leaving only the collapsed
copy named `a`), `destroy` on `a` removes `b`'s available and enabled units,
and `enable` on `a` copies `b`'s available unit (its content lands in the
enabled directory, under the collapsed destination name `a`). -/
theorem claim_C10_glob_prefix_capture (a t : String) (files : AppFiles)
    (c c' : Content) (_ht : t ≠ "") (hsa : sanitize_app_name a = a)
    (_hsb : sanitize_app_name (a ++ t) = a ++ t) :
    (disable_app a (fsPrefixPair a t files c c')).1.enabled = [] ∧
    (restart_app a (fsPrefixPair a t files c c')).1.enabled = [(a, c)] ∧
    (destroy_app a (fsPrefixPair a t files c c')).avail = [] ∧
    (destroy_app a (fsPrefixPair a t files c c')).enabled = [] ∧
    (enable_app a (fsPrefixPair a t files c c')).1.enabled
        = [(a ++ t ++ "_web_1.ini", c'), (a, c)] := by
  have hassoc : a ++ t ++ "_web_1.ini" = a ++ (t ++ "_web_1.ini") :=
    String.append_assoc a t "_web_1.ini"
  have hsuf : ".ini".data <:+ (t ++ "_web_1.ini").data := by
    rw [String.data_append]
    exact (by decide : ".ini".data <:+ "_web_1.ini".data).trans
      (List.suffix_append t.data "_web_1.ini".data)
  have hg : iniGlobMatch a (a ++ t ++ "_web_1.ini") = true := by
    rw [hassoc]
    exact iniGlobMatch_of_suffix a (t ++ "_web_1.ini") hsuf
  have hnil : (t ++ "_web_1.ini").data ≠ [] := by
    rw [String.data_append]
    intro h
    have h2 := congrArg List.length h
    rw [List.length_append] at h2
    simp only [List.length_nil] at h2
    have hlen : "_web_1.ini".data.length = 10 := rfl
    rw [hlen] at h2
    omega
  have hne : a ++ t ++ "_web_1.ini" ≠ a := by
    rw [hassoc]
    exact append_ne_of_data_ne_nil a (t ++ "_web_1.ini") hnil
  refine ⟨?_, ?_, ?_, ?_, ?_⟩
  · simp [disable_app, fsPrefixPair, hsa, hg]
  · simp [restart_app, fsPrefixPair, hsa, hg, copy_into_enabled, setKey]
  · simp [destroy_app, fsPrefixPair, hsa, hg]
  · simp [destroy_app, fsPrefixPair, hsa, hg]
  · simp [enable_app, fsPrefixPair, hsa, hg, copy_into_enabled, setKey, getVal, hne]

/-- C10 witness: `a = "app"` is a proper prefix of `b = "app2"`; the four
commands invoked on `app` capture `app2`'s unit. -/
theorem claim_C10_witness :
    (disable_app "app" (fsPrefixPair "app" "2" noFiles [("k", "v")] [("k", "w")])).1.enabled
        = [] ∧
    (restart_app "app" (fsPrefixPair "app" "2" noFiles [("k", "v")] [("k", "w")])).1.enabled
        = [("app", [("k", "v")])] ∧
    (destroy_app "app" (fsPrefixPair "app" "2" noFiles [("k", "v")] [("k", "w")])).avail
        = [] ∧
    (destroy_app "app" (fsPrefixPair "app" "2" noFiles [("k", "v")] [("k", "w")])).enabled
        = [] ∧
    (enable_app "app" (fsPrefixPair "app" "2" noFiles [("k", "v")] [("k", "w")])).1.enabled
        = [("app" ++ "2" ++ "_web_1.ini", [("k", "w")]), ("app", [("k", "v")])] :=
  claim_C10_glob_prefix_capture "app" "2" noFiles [("k", "v")] [("k", "w")]
    (by decide) (by decide) (by decide)

end Piku

namespace Piku

/-! ### Empty sanitized name in `destroy` (C9) -/

theorem normSlash_pathJoin_empty (x : String) : normSlash (pathJoin x "") = x := by
  unfold normSlash pathJoin
  have h1 : (x ++ "/" ++ "").data = x.data ++ ['/'] := by
    simp [String.data_append]
  rw [h1, List.getLast?_concat, if_pos rfl, List.dropLast_concat]

theorem rmtree_join_empty (x : String) (s : DiskFS) :
    rmtree (pathJoin x "") s
      = { dirs := s.dirs.filter (fun d => ¬ underTree x d),
          files := s.files.filter (fun f => ¬ underTree x f) } := by
  unfold rmtree
  dsimp only
  rw [normSlash_pathJoin_empty]

theorem underTree_self (p : String) : underTree p p = true := by
  simp [underTree]

theorem underTree_pathJoin_ne (root x y : String) (hne : x ≠ y)
    (hp : ¬ ((x ++ "/").data <+: y.data)) :
    underTree (pathJoin root x) (pathJoin root y) = false := by
  unfold underTree pathJoin
  rw [Bool.or_eq_false_iff]
  constructor
  · rw [beq_eq_false_iff_ne]
    intro h
    apply hne
    apply String.ext
    have h1 := congrArg String.data h
    rw [String.data_append, String.data_append] at h1
    exact (List.append_cancel_left h1).symm
  · rw [Bool.eq_false_iff]
    intro hpre
    apply hp
    have h1 := isPrefixOf_eq_true.mp hpre
    rw [String.data_append, String.data_append, String.data_append,
      List.append_assoc] at h1
    have h2 := (List.prefix_append_right_inj _).mp h1
    rw [← String.data_append] at h2
    exact h2

theorem existsPath_join_empty_of_mem (s : DiskFS) (x : String) (h : x ∈ s.dirs) :
    existsPath s (pathJoin x "") = true := by
  unfold existsPath
  rw [normSlash_pathJoin_empty, Bool.or_eq_true]
  exact Or.inl (List.elem_iff.mpr h)

theorem destroyDirStep_empty_of_mem (s : DiskFS) (x : String) (h : x ∈ s.dirs) :
    destroyDirStep "" s x
      = { dirs := s.dirs.filter (fun d => ¬ underTree x d),
          files := s.files.filter (fun f => ¬ underTree x f) } := by
  unfold destroyDirStep
  dsimp only
  rw [if_pos (existsPath_join_empty_of_mem s x h), rmtree_join_empty]

theorem destroyDirStep_dirs_sub (app : String) (s : DiskFS) (x : String)
    {d : String} (hd : d ∈ (destroyDirStep app s x).dirs) : d ∈ s.dirs := by
  unfold destroyDirStep rmtree at hd
  dsimp only at hd
  split at hd
  · exact List.mem_of_mem_filter hd
  · exact hd

/-- A file matching some app's `.ini` glob matches the empty-name glob
(`*.ini` in the same directory), for any app name made of the characters
`sanitize_app_name` lets through that does not begin with a dot — for a
dot-led app name the hidden-file rule makes the empty-name `*`-led pattern
reject the app's dot-led unit files. -/
theorem pathGlobIni_empty_of (d a f : String)
    (ha : ∀ ch ∈ a.data, ch.isAlphanum = true ∨ ch = '.' ∨ ch = '_')
    (hdot : a.data.head? ≠ some '.')
    (h : pathGlobIni d a f = true) : pathGlobIni d "" f = true := by
  cases hcase : a.data with
  | nil =>
    have ha0 : a = "" := String.ext hcase
    rw [ha0] at h
    exact h
  | cons c0 tl =>
    have hc0 : c0 ≠ '.' := by
      intro hq
      rw [hcase, hq] at hdot
      exact hdot rfl
    unfold pathGlobIni at h ⊢
    rw [Bool.and_eq_true, Bool.and_eq_true, Bool.and_eq_true] at h
    obtain ⟨hpre, hsuf, hall, _⟩ := h
    obtain ⟨rest, hrest⟩ := isPrefixOf_eq_true.mp hpre
    have hdata : (pathJoin d a).data = (d ++ "/").data ++ a.data := by
      unfold pathJoin
      rw [String.data_append]
    have hdata0 : (pathJoin d "").data = (d ++ "/").data := by
      unfold pathJoin
      rw [String.data_append]
      simp
    have hf : f.data = (d ++ "/").data ++ (a.data ++ rest) := by
      rw [← hrest, hdata, List.append_assoc]
    have hdropA : f.data.drop (pathJoin d a).data.length = rest := by
      rw [← hrest, List.drop_left]
    have hdrop0 : f.data.drop (pathJoin d "").data.length = a.data ++ rest := by
      rw [hdata0, hf, List.drop_left]
    have hbase : f.data.drop (d ++ "/").data.length = a.data ++ rest := by
      rw [hf, List.drop_left]
    rw [Bool.and_eq_true, Bool.and_eq_true, Bool.and_eq_true]
    refine ⟨?_, ?_, ?_, ?_⟩
    · rw [hdata0, hf]
      exact isPrefixOf_eq_true.mpr (List.prefix_append _ _)
    · rw [hdrop0]
      rw [hdropA] at hsuf
      exact List.isSuffixOf_iff_suffix.mpr
        ((List.isSuffixOf_iff_suffix.mp hsuf).trans (List.suffix_append _ _))
    · rw [hdrop0]
      rw [hdropA] at hall
      rw [List.all_append, Bool.and_eq_true]
      refine ⟨?_, hall⟩
      rw [List.all_eq_true]
      intro ch hch
      have hne : ch ≠ '/' := by
        rcases ha ch hch with h1 | h1 | h1
        · intro hq; rw [hq] at h1; exact absurd h1 (by decide)
        · rw [h1]; decide
        · rw [h1]; decide
      exact decide_eq_true hne
    · rw [hbase, hcase, List.cons_append]
      unfold globHiddenOk
      have hne2 : ¬ ((c0 :: (tl ++ rest)).head? = some '.') := by
        rw [List.head?_cons]
        intro hq
        exact hc0 (Option.some.inj hq)
      rw [if_neg hne2]

end Piku

namespace Piku

/-- The four roots plus one configuration unit of the application `.foo`,
whose sanitized name begins with a dot. -/
def diskDot : DiskFS :=
  { dirs := ["/piku/apps", "/piku/repos", "/piku/envs", "/piku/logs"],
    files := ["/piku/uwsgi-available/.foo_web_1.ini"] }

/-- C9 counterexample: the claim as stated — destroy with an
empty-sanitizing name deletes every available and every enabled
configuration unit of every application — is false.  `.foo` is a legal
sanitized application name, the file `.foo_web_1.ini` is a genuine unit of
that application (its own dot-led `.foo*.ini` glob matches it), yet it
survives a destroy with the empty sanitized name: the empty-name pattern
`*.ini` begins with `*`, so glob's hidden-file rule never matches the
dot-led basename. -/
theorem claim_C9_counterexample :
    sanitize_app_name ".foo" = ".foo" ∧
    pathGlobIni (UWSGI_AVAILABLE "/piku") ".foo"
        "/piku/uwsgi-available/.foo_web_1.ini" = true ∧
    "/piku/uwsgi-available/.foo_web_1.ini"
        ∈ (destroy_app_disk "/piku" "!! !" diskDot).files := by decide

/-- C9 (amended): an input with no alphanumeric, `.` or `_` characters
sanitizes to the empty string, and `destroy` run with such a name removes
the entire application, repository, virtualenv and log root directories
(the per-app paths `join(root, "")` are the roots themselves) and deletes
every file matching the empty-name glob `*.ini` in the available and
enabled directories — which the configuration units of every application
whose sanitized name does not begin with a dot match.  Dot-led app names
are the one exception: glob's hidden-file rule keeps the `*`-led pattern
from matching their dot-led unit files (see the counterexample). -/
theorem claim_C9_empty_name_destroys_roots (root s : String) (fs : DiskFS)
    (hs : ∀ ch ∈ s.data, (ch.isAlphanum || ch == '.' || ch == '_') = false)
    (hA : APP_ROOT root ∈ fs.dirs) (hG : GIT_ROOT root ∈ fs.dirs)
    (hE : ENV_ROOT root ∈ fs.dirs) (hL : LOG_ROOT root ∈ fs.dirs) :
    sanitize_app_name s = "" ∧
    APP_ROOT root ∉ (destroy_app_disk root s fs).dirs ∧
    GIT_ROOT root ∉ (destroy_app_disk root s fs).dirs ∧
    ENV_ROOT root ∉ (destroy_app_disk root s fs).dirs ∧
    LOG_ROOT root ∉ (destroy_app_disk root s fs).dirs ∧
    (∀ f ∈ (destroy_app_disk root s fs).files,
      pathGlobIni (UWSGI_AVAILABLE root) "" f = false ∧
      pathGlobIni (UWSGI_ENABLED root) "" f = false) ∧
    (∀ d a f, (∀ ch ∈ a.data, ch.isAlphanum = true ∨ ch = '.' ∨ ch = '_') →
      a.data.head? ≠ some '.' →
      pathGlobIni d a f = true → pathGlobIni d "" f = true) := by
  have hsan : sanitize_app_name s = "" := by
    unfold sanitize_app_name
    have h0 : s.data.filter (fun c => c.isAlphanum || c == '.' || c == '_') = [] :=
      List.filter_eq_nil_iff.mpr (fun c hc => by simp [hs c hc])
    rw [h0]
    rfl
  refine ⟨hsan, ?_⟩
  unfold destroy_app_disk
  rw [hsan]
  dsimp only
  simp only [List.foldl_cons, List.foldl_nil]
  set s1 := destroyDirStep "" fs (APP_ROOT root) with hs1def
  set s2 := destroyDirStep "" s1 (GIT_ROOT root) with hs2def
  set s3 := destroyDirStep "" s2 (ENV_ROOT root) with hs3def
  set s4 := destroyDirStep "" s3 (LOG_ROOT root) with hs4def
  have hAG : underTree (APP_ROOT root) (GIT_ROOT root) = false :=
    underTree_pathJoin_ne root "apps" "repos" (by decide) (by decide)
  have hAE : underTree (APP_ROOT root) (ENV_ROOT root) = false :=
    underTree_pathJoin_ne root "apps" "envs" (by decide) (by decide)
  have hAL : underTree (APP_ROOT root) (LOG_ROOT root) = false :=
    underTree_pathJoin_ne root "apps" "logs" (by decide) (by decide)
  have hGE : underTree (GIT_ROOT root) (ENV_ROOT root) = false :=
    underTree_pathJoin_ne root "repos" "envs" (by decide) (by decide)
  have hGL : underTree (GIT_ROOT root) (LOG_ROOT root) = false :=
    underTree_pathJoin_ne root "repos" "logs" (by decide) (by decide)
  have hEL : underTree (ENV_ROOT root) (LOG_ROOT root) = false :=
    underTree_pathJoin_ne root "envs" "logs" (by decide) (by decide)
  have hs1 : s1 =
      { dirs := fs.dirs.filter (fun d => ¬ underTree (APP_ROOT root) d),
        files := fs.files.filter (fun f => ¬ underTree (APP_ROOT root) f) } :=
    destroyDirStep_empty_of_mem fs _ hA
  have hGm1 : GIT_ROOT root ∈ s1.dirs := by
    rw [hs1]
    exact List.mem_filter.mpr ⟨hG, by simp [hAG]⟩
  have hEm1 : ENV_ROOT root ∈ s1.dirs := by
    rw [hs1]
    exact List.mem_filter.mpr ⟨hE, by simp [hAE]⟩
  have hLm1 : LOG_ROOT root ∈ s1.dirs := by
    rw [hs1]
    exact List.mem_filter.mpr ⟨hL, by simp [hAL]⟩
  have hs2 : s2 =
      { dirs := s1.dirs.filter (fun d => ¬ underTree (GIT_ROOT root) d),
        files := s1.files.filter (fun f => ¬ underTree (GIT_ROOT root) f) } :=
    destroyDirStep_empty_of_mem s1 _ hGm1
  have hEm2 : ENV_ROOT root ∈ s2.dirs := by
    rw [hs2]
    exact List.mem_filter.mpr ⟨hEm1, by simp [hGE]⟩
  have hLm2 : LOG_ROOT root ∈ s2.dirs := by
    rw [hs2]
    exact List.mem_filter.mpr ⟨hLm1, by simp [hGL]⟩
  have hs3 : s3 =
      { dirs := s2.dirs.filter (fun d => ¬ underTree (ENV_ROOT root) d),
        files := s2.files.filter (fun f => ¬ underTree (ENV_ROOT root) f) } :=
    destroyDirStep_empty_of_mem s2 _ hEm2
  have hLm3 : LOG_ROOT root ∈ s3.dirs := by
    rw [hs3]
    exact List.mem_filter.mpr ⟨hLm2, by simp [hEL]⟩
  have hs4 : s4 =
      { dirs := s3.dirs.filter (fun d => ¬ underTree (LOG_ROOT root) d),
        files := s3.files.filter (fun f => ¬ underTree (LOG_ROOT root) f) } :=
    destroyDirStep_empty_of_mem s3 _ hLm3
  have hAn1 : APP_ROOT root ∉ s1.dirs := by
    rw [hs1]
    intro hmem
    have h2 := (List.mem_filter.mp hmem).2
    simp [underTree_self] at h2
  have hGn2 : GIT_ROOT root ∉ s2.dirs := by
    rw [hs2]
    intro hmem
    have h2 := (List.mem_filter.mp hmem).2
    simp [underTree_self] at h2
  have hEn3 : ENV_ROOT root ∉ s3.dirs := by
    rw [hs3]
    intro hmem
    have h2 := (List.mem_filter.mp hmem).2
    simp [underTree_self] at h2
  have hLn4 : LOG_ROOT root ∉ s4.dirs := by
    rw [hs4]
    intro hmem
    have h2 := (List.mem_filter.mp hmem).2
    simp [underTree_self] at h2
  have hAn4 : APP_ROOT root ∉ s4.dirs := fun hmem =>
    hAn1 (destroyDirStep_dirs_sub "" s1 _
      (destroyDirStep_dirs_sub "" s2 _ (destroyDirStep_dirs_sub "" s3 _ hmem)))
  have hGn4 : GIT_ROOT root ∉ s4.dirs := fun hmem =>
    hGn2 (destroyDirStep_dirs_sub "" s2 _ (destroyDirStep_dirs_sub "" s3 _ hmem))
  have hEn4 : ENV_ROOT root ∉ s4.dirs := fun hmem =>
    hEn3 (destroyDirStep_dirs_sub "" s3 _ hmem)
  refine ⟨hAn4, hGn4, hEn4, hLn4, ?_, pathGlobIni_empty_of⟩
  intro f hf
  have h2 := (List.mem_filter.mp hf).2
  simp only [decide_eq_true_eq, Bool.or_eq_true, not_or] at h2
  exact ⟨Bool.eq_false_iff.mpr h2.1, Bool.eq_false_iff.mpr h2.2⟩

/-- A disk state holding the four roots and one configuration unit of an
application `x` in each uwsgi directory. -/
def diskW : DiskFS :=
  { dirs := ["/piku/apps", "/piku/repos", "/piku/envs", "/piku/logs"],
    files := ["/piku/uwsgi-available/x_web_1.ini", "/piku/uwsgi-enabled/x_web_1.ini"] }

/-- C9 witness: the name `"!! !"` sanitizes to the empty string, and destroy
with it removes all four roots and every glob-matching unit file. -/
theorem claim_C9_witness :
    sanitize_app_name "!! !" = "" ∧
    APP_ROOT "/piku" ∉ (destroy_app_disk "/piku" "!! !" diskW).dirs ∧
    GIT_ROOT "/piku" ∉ (destroy_app_disk "/piku" "!! !" diskW).dirs ∧
    ENV_ROOT "/piku" ∉ (destroy_app_disk "/piku" "!! !" diskW).dirs ∧
    LOG_ROOT "/piku" ∉ (destroy_app_disk "/piku" "!! !" diskW).dirs ∧
    (∀ f ∈ (destroy_app_disk "/piku" "!! !" diskW).files,
      pathGlobIni (UWSGI_AVAILABLE "/piku") "" f = false ∧
      pathGlobIni (UWSGI_ENABLED "/piku") "" f = false) ∧
    (∀ d a f, (∀ ch ∈ a.data, ch.isAlphanum = true ∨ ch = '.' ∨ ch = '_') →
      a.data.head? ≠ some '.' →
      pathGlobIni d a f = true → pathGlobIni d "" f = true) :=
  claim_C9_empty_name_destroys_roots "/piku" "!! !" diskW
    (by decide) (by decide) (by decide) (by decide) (by decide)

end Piku
